import Mathlib

/-!
Verification of the secp256k1 point-arithmetic core (`src/secp256k1.rs`):
affine point addition, point doubling, and double-and-add scalar
multiplication (`pr_to_pub`), together with the hex key codec.

The big-integer collaborator `RU256` is not part of the sources; its
modular-arithmetic operations are modelled from the specification's
description of the FieldArithmetic interface, on `Nat`.

Fatal aborts (the `assert!` in `add_points`, `unwrap` on parse failure)
are modelled with `Option`: `none` is an abort.  The `println!`
diagnostics embedded in the arithmetic routines are modelled separately
by `-Log` variants that also return the list of emitted lines.
-/

set_option maxRecDepth 100000
set_option maxHeartbeats 16000000

/-- Modelled from the spec: the missing `RU256::sub_mod(other, p)` of the
FieldArithmetic collaborator — modular subtraction, canonical
representative in `[0, p)`. -/
def subMod (a b p : Nat) : Nat := (((a : Int) - (b : Int)) % (p : Int)).toNat

/-- Modelled from the spec: the missing `RU256::mul_mod(other, p)` of the
FieldArithmetic collaborator — modular multiplication. -/
def mulMod (a b p : Nat) : Nat := a * b % p

/-- The most-significant-bit-first sequence of `n` binary digits of `k`
(Modelled from the spec: the missing `RU256::to_bytes` plus
`bytes::bytes_to_binary` collaborators, which decompose a 256-bit value
into 256 bits, most significant first). -/
def bitsBE : Nat → Nat → List Nat
  | 0, _ => []
  | n + 1, k => (k / 2 ^ n % 2) :: bitsBE n k

/-- Square-and-multiply modular exponentiation over the 256 bits of the
exponent, most significant first.  Kernel-computable. -/
def powMod (b e p : Nat) : Nat :=
  (bitsBE 256 e).foldl (fun acc d => if d = 0 then acc * acc % p else acc * acc % p * b % p) (1 % p)

/-- Modelled from the spec: the missing `RU256::div_mod(other, p)` of the
FieldArithmetic collaborator — "multiply by the modular inverse of
`other`", the inverse realised as Fermat exponentiation
`other ^ (p - 2) mod p` (so a divisor `≡ 0 mod p` yields 0 rather than a
failure, the spec assigning `div_mod` no failure mode of its own). -/
def divMod (a b p : Nat) : Nat := a * powMod (b % p) (p - 2) p % p

/-- Affine point of the curve: pair of `RU256` coordinates (modelled as
`Nat`), as in `struct Point` of `secp256k1.rs`. -/
structure Point where
  x : Nat
  y : Nat
deriving DecidableEq, Repr

/-- The prime modulus `SECP256K1::p()`. -/
def secpP : Nat := 0xFFFFFFFFFFFFFFFFFFFFFFFFFFFFFFFFFFFFFFFFFFFFFFFFFFFFFFFEFFFFFC2F

/-- The group order `SECP256K1::n()`. -/
def secpN : Nat := 0xFFFFFFFFFFFFFFFFFFFFFFFFFFFFFFFEBAAEDCE6AF48A03BBFD25E8CD0364141

/-- The generator `SECP256K1::g()`. -/
def gPoint : Point :=
  { x := 0x79BE667EF9DCBBAC55A06295CE870B07029BFCDB2DCE28D959F2815B16F81798,
    y := 0x483ADA7726A3C4655DA4FBFC0E1108A8FD17B448A68554199C47D08FFB10D4B8 }

/-- The identity sentinel `SECP256K1::zero_point()`: both coordinates 0. -/
def zeroPoint : Point := { x := 0, y := 0 }

/-- Model of `Point::is_zero_point`: both coordinates equal 0. -/
def isZeroPoint (pt : Point) : Bool := pt.x == 0 && pt.y == 0

/-- Model of `SECP256K1::add_points`, with the fatal `assert!(pt1.y != pt2.y)`
modelled as `none`.  The assertion is evaluated first, before the
identity-sentinel checks, exactly as in the source. -/
def addPoints (pt1 pt2 : Point) : Option Point :=
  if pt1.y = pt2.y then none
  else if isZeroPoint pt1 then some pt2
  else if isZeroPoint pt2 then some pt1
  else
    let p := secpP
    let yDiff := subMod pt1.y pt2.y p
    let xDiff := subMod pt1.x pt2.x p
    let lam := divMod yDiff xDiff p
    let x3 := subMod (subMod (mulMod lam lam p) pt1.x p) pt2.x p
    let y3 := subMod (mulMod (subMod pt1.x x3 p) lam p) pt1.y p
    some { x := x3, y := y3 }

/-- Model of `SECP256K1::double_point`: identity and `y = 0` guards, then the
tangent-slope formula.  Total (no assertion). -/
def doublePoint (pt : Point) : Point :=
  if isZeroPoint pt then zeroPoint
  else if pt.y = 0 then zeroPoint
  else
    let p := secpP
    let twoY := mulMod pt.y 2 p
    let x123 := mulMod (mulMod pt.x pt.x p) 3 p
    let lam := divMod x123 twoY p
    let x3 := subMod (subMod (mulMod lam lam p) pt.x p) pt.x p
    let y3 := subMod (mulMod (subMod pt.x x3 p) lam p) pt.y p
    { x := x3, y := y3 }

/-- One iteration of the double-and-add loop of `SECP256K1::pr_to_pub`:
state is (accumulator or abort, `on` flag). -/
def prStep (st : Option Point × Bool) (d : Nat) : Option Point × Bool :=
  match st with
  | (none, started) => (none, started)
  | (some base, started) =>
    let base1 := if started then doublePoint base else base
    if d > 0 then (addPoints base1 gPoint, true) else (some base1, started)

/-- Model of `SECP256K1::pr_to_pub`: double-and-add over the 256 bits of the
scalar, most significant first; `none` is a fatal abort in an inner
`add_points`. -/
def prToPub (pr : Nat) : Option Point :=
  ((bitsBE 256 pr).foldl prStep (some zeroPoint, false)).1

/-- The spec's doubling algorithm (§4.4), written from the spec's words to
be compared with the source's `double_point`: identity-or-`y = 0` guard,
`λ = (3·x²)/(2·y) mod p`, `x3 = λ² − 2x mod p`,
`y3 = λ·(x − x3) − y mod p`. -/
def doublePointSpec (pt : Point) : Point :=
  if isZeroPoint pt || pt.y == 0 then zeroPoint
  else
    let p := secpP
    let lam := divMod (mulMod 3 (mulMod pt.x pt.x p) p) (mulMod 2 pt.y p) p
    let x3 := subMod (mulMod lam lam p) (mulMod 2 pt.x p) p
    let y3 := subMod (mulMod lam (subMod pt.x x3 p) p) pt.y p
    { x := x3, y := y3 }

/-- Variant of `div_mod` with its implicit division-by-zero hazard made explicit:
`none` when the divisor is `≡ 0 mod p`, i.e. when no modular inverse
exists. -/
def divModChecked (a b p : Nat) : Option Nat :=
  if b % p = 0 then none else some (divMod a b p)

/-- Variant of `double_point` with the division-by-zero hazard of its single
`div_mod` call made explicit via `divModChecked`. -/
def doublePointChecked (pt : Point) : Option Point :=
  if isZeroPoint pt then some zeroPoint
  else if pt.y = 0 then some zeroPoint
  else
    let p := secpP
    let twoY := mulMod pt.y 2 p
    let x123 := mulMod (mulMod pt.x pt.x p) 3 p
    match divModChecked x123 twoY p with
    | none => none
    | some lam =>
      let x3 := subMod (subMod (mulMod lam lam p) pt.x p) pt.x p
      let y3 := subMod (mulMod (subMod pt.x x3 p) lam p) pt.y p
      some { x := x3, y := y3 }

/-- Model of `add_points` together with the lines its `println!` writes to stdout:
`"adding"` is printed first, before the assertion. -/
def addPointsLog (pt1 pt2 : Point) : List String × Option Point :=
  (["adding"], addPoints pt1 pt2)

/-- Model of `double_point` together with the lines its `println!` writes to
stdout. -/
def doublePointLog (pt : Point) : List String × Point :=
  (["doubling"], doublePoint pt)

/-- One iteration of `pr_to_pub`'s loop with its diagnostic output:
state is (lines printed so far, accumulator or abort, `on` flag, step
counter). -/
def prStepLog (st : List String × Option Point × Bool × Nat) (d : Nat) :
    List String × Option Point × Bool × Nat :=
  match st with
  | (logs, none, started, step) => (logs, none, started, step)
  | (logs, some base, started, step) =>
    let logs1 := logs ++ ["step: " ++ Nat.repr step ++ ", bit: " ++ Nat.repr d]
    let base1 := if started then doublePoint base else base
    let logs2 := if started then logs1 ++ ["doubling"] else logs1
    if d > 0 then (logs2 ++ ["adding"], addPoints base1 gPoint, true, step + 1)
    else (logs2, some base1, started, step + 1)

/-- Model of `pr_to_pub` together with the diagnostic lines the run prints. -/
def prToPubLog (pr : Nat) : List String × Option Point :=
  let r := (bitsBE 256 pr).foldl prStepLog ([], some zeroPoint, false, 0)
  (r.1, r.2.1)

/-- The 22 characters accepted as hexadecimal digits. -/
def hexDigits : List Char := "0123456789abcdefABCDEF".data

/-- Value of one hexadecimal digit character, `none` on anything else. -/
def hexVal (c : Char) : Option Nat :=
  if c = '0' then some 0 else if c = '1' then some 1
  else if c = '2' then some 2 else if c = '3' then some 3
  else if c = '4' then some 4 else if c = '5' then some 5
  else if c = '6' then some 6 else if c = '7' then some 7
  else if c = '8' then some 8 else if c = '9' then some 9
  else if c = 'a' then some 10 else if c = 'b' then some 11
  else if c = 'c' then some 12 else if c = 'd' then some 13
  else if c = 'e' then some 14 else if c = 'f' then some 15
  else if c = 'A' then some 10 else if c = 'B' then some 11
  else if c = 'C' then some 12 else if c = 'D' then some 13
  else if c = 'E' then some 14 else if c = 'F' then some 15
  else none

/-- Lowercasing of the six uppercase hexadecimal letters. -/
def lowerChar (c : Char) : Char :=
  if c = 'A' then 'a' else if c = 'B' then 'b' else if c = 'C' then 'c'
  else if c = 'D' then 'd' else if c = 'E' then 'e' else if c = 'F' then 'f'
  else c

/-- The lowercase hexadecimal digit character of a value below 16. -/
def hexDigitChar (d : Nat) : Char :=
  if d = 0 then '0' else if d = 1 then '1' else if d = 2 then '2'
  else if d = 3 then '3' else if d = 4 then '4' else if d = 5 then '5'
  else if d = 6 then '6' else if d = 7 then '7' else if d = 8 then '8'
  else if d = 9 then '9' else if d = 10 then 'a' else if d = 11 then 'b'
  else if d = 12 then 'c' else if d = 13 then 'd' else if d = 14 then 'e'
  else if d = 15 then 'f' else '*'

/-- Big-endian hexadecimal parse, accumulator style. -/
def parseHexAcc (acc : Nat) : List Char → Option Nat
  | [] => some acc
  | c :: cs =>
    match hexVal c with
    | none => none
    | some d => parseHexAcc (16 * acc + d) cs

/-- Modelled from the spec: the missing `RU256::from_str` hex parse of
the FieldArithmetic collaborator — fails on malformed hex. -/
def parseHex (l : List Char) : Option Nat := parseHexAcc 0 l

/-- Big-endian rendering of the low `n` hexadecimal digits of a value
(Modelled from the spec: the missing `RU256::to_string`, the
FieldElement's canonical 64-hex-character lowercase form). -/
def toHexAux : Nat → Nat → List Char
  | 0, _ => []
  | n + 1, v => toHexAux n (v / 16) ++ [hexDigitChar (v % 16)]

/-- Model of `Point::from_hex_coordinates`, with the `unwrap` panic on a parse
failure modelled as `none`. -/
def fromHexCoordinates (xs ys : String) : Option Point :=
  match parseHex xs.data, parseHex ys.data with
  | some a, some b => some { x := a, y := b }
  | _, _ => none

/-- Model of `Point::to_hex_string`: the marker `"04"` followed by the two
64-hex-character coordinate renderings. -/
def toHexString (pt : Point) : String :=
  String.mk ('0' :: '4' :: (toHexAux 64 pt.x ++ toHexAux 64 pt.y))

/-- The generator's x-coordinate as an uppercase hex-digit string. -/
def gXHex : String := "79BE667EF9DCBBAC55A06295CE870B07029BFCDB2DCE28D959F2815B16F81798"

/-- The generator's y-coordinate as an uppercase hex-digit string. -/
def gYHex : String := "483ADA7726A3C4655DA4FBFC0E1108A8FD17B448A68554199C47D08FFB10D4B8"

/-- C2 counterexample input: the claim asserts `add(identity, identity) =
identity`, but the `assert!(pt1.y != pt2.y)` runs before the identity
checks and `identity.y = identity.y`, so the call aborts. -/
theorem add_identity_fails_at_identity :
    addPoints zeroPoint zeroPoint ≠ some zeroPoint := by
  decide

/-- C2 (amended): for every point `P` with `P.y ≠ 0`,
`add(P, identity) = P` and `add(identity, P) = P`; the `y`-equality
assertion precedes the identity checks, so points with `y = 0`
(the identity itself included) abort instead. -/
theorem add_identity_law_nonzero_y (P : Point) (h : P.y ≠ 0) :
    addPoints P zeroPoint = some P ∧ addPoints zeroPoint P = some P := by
  constructor
  · simp [addPoints, isZeroPoint, zeroPoint, h]
  · have h' : (0 : Nat) ≠ P.y := fun hc => h hc.symm
    simp [addPoints, isZeroPoint, zeroPoint, h']

/-- C2 witness: the amended identity law at the generator. -/
theorem add_identity_law_nonzero_y_witness :
    gPoint.y ≠ 0 ∧
      (addPoints gPoint zeroPoint = some gPoint ∧ addPoints zeroPoint gPoint = some gPoint) :=
  ⟨by decide, add_identity_law_nonzero_y gPoint (by decide)⟩

/-- C3 counterexample input: at `P = G` (not identity, `y ≠ 0`),
`add(G, G)` aborts at the `y1 ≠ y2` assertion, so it does not equal
`double(G)`. -/
theorem add_self_aborts_at_G :
    addPoints gPoint gPoint = none ∧ addPoints gPoint gPoint ≠ some (doublePoint gPoint) := by
  constructor
  · simp [addPoints]
  · simp [addPoints]

/-- C3 (amended): for every point `P` — identity or not, of order 2 or
not — `add(P, P)` aborts at the `y1 ≠ y2` assertion, so the
doubling-consistency law `double(P) = add(P, P)` holds for no point;
`double` alone implements doubling. -/
theorem add_self_always_aborts (P : Point) : addPoints P P = none := by
  simp [addPoints]

/-- C4: `add(P1, P2)` aborts exactly when the two points have equal
`y`-coordinates (the `assert!(pt1.y != pt2.y)`), and for every pair with
`y1 ≠ y2` it returns normally. -/
theorem add_aborts_iff_equal_y (P1 P2 : Point) :
    addPoints P1 P2 = none ↔ P1.y = P2.y := by
  by_cases h : P1.y = P2.y
  · simp [addPoints, h]
  · simp only [addPoints, if_neg h]
    constructor
    · intro hc
      split at hc <;> simp_all
      split at hc <;> simp_all
    · intro hc
      exact absurd hc h

/-- The canonical representative produced by `subMod` lies below the
modulus. -/
theorem subMod_lt (a b p : Nat) (hp : 0 < p) : subMod a b p < p := by
  unfold subMod
  have h0 : (0 : Int) < (p : Int) := by exact_mod_cast hp
  have h1 : ((a : Int) - b) % p < p := Int.emod_lt_of_pos _ h0
  have h2 : (0 : Int) ≤ ((a : Int) - b) % p := Int.emod_nonneg _ (by omega)
  omega

/-- Cast bridge: `subMod` is modular subtraction, seen in `ZMod p`. -/
theorem natCast_subMod (a b p : Nat) (hp : 0 < p) :
    ((subMod a b p : Nat) : ZMod p) = (a : ZMod p) - b := by
  unfold subMod
  have h2 : (0 : Int) ≤ ((a : Int) - b) % p :=
    Int.emod_nonneg _ (by exact_mod_cast hp.ne')
  have h3 : ((((a : Int) - b) % p).toNat : Int) = ((a : Int) - b) % p :=
    Int.toNat_of_nonneg h2
  calc ((((a : Int) - b) % p).toNat : ZMod p)
      = (((((a : Int) - b) % p).toNat : Int) : ZMod p) := (Int.cast_natCast _).symm
    _ = ((((a : Int) - b) % p : Int) : ZMod p) := by rw [h3]
    _ = (((a : Int) - b : Int) : ZMod p) := ZMod.intCast_mod _ _
    _ = (a : ZMod p) - b := by
        rw [Int.cast_sub, Int.cast_natCast, Int.cast_natCast]

/-- Cast bridge: `mulMod` is modular multiplication, seen in `ZMod p`. -/
theorem natCast_mulMod (a b p : Nat) :
    ((mulMod a b p : Nat) : ZMod p) = (a : ZMod p) * b := by
  unfold mulMod
  rw [ZMod.natCast_mod]
  push_cast
  ring

/-- Naturals below `p` agreeing in `ZMod p` are equal. -/
theorem natCast_inj_lt (a b p : Nat) (ha : a < p) (hb : b < p)
    (h : (a : ZMod p) = b) : a = b := by
  haveI : NeZero p := ⟨by omega⟩
  have hv := congrArg ZMod.val h
  rwa [ZMod.val_natCast_of_lt ha, ZMod.val_natCast_of_lt hb] at hv

/-- Commutativity of `mulMod` in its two factors. -/
theorem mulMod_comm (a b p : Nat) : mulMod a b p = mulMod b a p := by
  unfold mulMod
  rw [Nat.mul_comm]

/-- Subtracting `x` twice mod `p` equals subtracting `2·x mod p` once. -/
theorem subMod_sub_sub (L x p : Nat) (hp : 0 < p) :
    subMod (subMod L x p) x p = subMod L (mulMod 2 x p) p := by
  apply natCast_inj_lt _ _ p (subMod_lt _ _ _ hp) (subMod_lt _ _ _ hp)
  rw [natCast_subMod _ _ _ hp, natCast_subMod _ _ _ hp, natCast_subMod _ _ _ hp,
    natCast_mulMod]
  ring

/-- C5: `double_point` returns the identity when its argument is the
identity sentinel or has `y = 0`, and otherwise computes exactly the
spec's formulas `λ = (3·x²)/(2·y) mod p`, `x3 = λ² − 2x mod p`,
`y3 = λ·(x − x3) − y mod p` (the source evaluates the same field
expressions in a different operand order and splits `−2x` into two
subtractions). -/
theorem double_point_matches_spec_formulas (pt : Point) :
    doublePoint pt = doublePointSpec pt := by
  have hp : 0 < secpP := by decide
  by_cases hz : isZeroPoint pt
  · simp [doublePoint, doublePointSpec, hz]
  · by_cases hy : pt.y = 0
    · simp [doublePoint, doublePointSpec, hz, hy]
    · have hyb : (pt.y == 0) = false := by simp [hy]
      simp only [doublePoint, doublePointSpec, hz, hyb, Bool.false_or,
        if_neg hy, Bool.false_eq_true, if_false]
      have hlam : divMod (mulMod (mulMod pt.x pt.x secpP) 3 secpP)
            (mulMod pt.y 2 secpP) secpP
          = divMod (mulMod 3 (mulMod pt.x pt.x secpP) secpP)
            (mulMod 2 pt.y secpP) secpP := by
        rw [mulMod_comm (mulMod pt.x pt.x secpP) 3, mulMod_comm pt.y 2]
      rw [hlam]
      have hx3 := subMod_sub_sub
        (mulMod (divMod (mulMod 3 (mulMod pt.x pt.x secpP) secpP)
          (mulMod 2 pt.y secpP) secpP)
          (divMod (mulMod 3 (mulMod pt.x pt.x secpP) secpP)
          (mulMod 2 pt.y secpP) secpP) secpP)
        pt.x secpP hp
      rw [hx3]
      rw [mulMod_comm (subMod pt.x _ secpP)]

/-- The single divisor `double_point` ever divides by, `2·y mod p`, is
nonzero whenever `0 < y < p`, because `p` is odd. -/
theorem twoY_ne_zero (y : Nat) (hy : y < secpP) (hy0 : y ≠ 0) :
    mulMod y 2 secpP % secpP ≠ 0 := by
  have hodd : secpP % 2 = 1 := by decide
  unfold mulMod
  rcases Nat.lt_or_ge (y * 2) secpP with h | h
  · rw [Nat.mod_eq_of_lt h, Nat.mod_eq_of_lt h]
    omega
  · have hsub : y * 2 % secpP = y * 2 - secpP := by
      rw [Nat.mod_eq_sub_mod h, Nat.mod_eq_of_lt (by omega)]
    rw [hsub, Nat.mod_eq_of_lt (by omega)]
    omega

/-- C10: `double_point` is total on points with coordinates reduced mod
`p` (on the curve or not): the identity and `y = 0` guards come before
the single division, whose divisor `2·y mod p` is then nonzero, so the
checked version returns a point and it is the one `double_point`
returns. -/
theorem double_point_total_reduced_inputs (pt : Point)
    (hx : pt.x < secpP) (hy : pt.y < secpP) :
    ∃ q : Point, doublePointChecked pt = some q ∧ doublePoint pt = q := by
  by_cases hz : isZeroPoint pt
  · exact ⟨zeroPoint, by simp [doublePointChecked, hz], by simp [doublePoint, hz]⟩
  · by_cases hy0 : pt.y = 0
    · exact ⟨zeroPoint, by simp [doublePointChecked, hz, hy0],
        by simp [doublePoint, hz, hy0]⟩
    · have hdiv := twoY_ne_zero pt.y hy hy0
      refine ⟨doublePoint pt, ?_, rfl⟩
      simp [doublePointChecked, doublePoint, divModChecked, hz, hy0, hdiv]

/-- C10 witness: totality of `double_point` at the generator. -/
theorem double_point_total_reduced_inputs_witness :
    gPoint.x < secpP ∧ gPoint.y < secpP ∧
      ∃ q : Point, doublePointChecked gPoint = some q ∧ doublePoint gPoint = q :=
  ⟨by decide, by decide, double_point_total_reduced_inputs gPoint (by decide) (by decide)⟩

/-- C6: `pr_to_pub(0)` returns the identity sentinel and `pr_to_pub(1)`
returns the generator `G`. -/
theorem pr_to_pub_base_cases :
    prToPub 0 = some zeroPoint ∧ prToPub 1 = some gPoint := by
  decide

/-- C7: doubling the generator twice and rendering the result yields the
expected uncompressed hex encoding of `4·G`. -/
theorem double_double_g_hex :
    toHexString (doublePoint (doublePoint gPoint)) =
      "04e493dbf1c10d80f3581e4904930b1404cc6c13900ee0758474fa94abe8c4cd1351ed993ea0d455b75642e2098ea51448d967ae33bfbdfe40cfe97bdc47739922" := by
  decide

/-- C1 counterexample input: the 256-bit scalar `n + 2` (where `n` is the
group order).  `k·G` there is `2·G`, but `pr_to_pub` aborts: after the
last doubling the accumulator is `(n+1)·G = G`, and the final
`add_points(G, G)` fails its `y1 ≠ y2` assertion. -/
theorem pr_to_pub_aborts_above_order :
    secpN + 2 < 2 ^ 256 ∧ prToPub (secpN + 2) = none :=
  ⟨by decide, by decide⟩

/-- C1 (amended): `pr_to_pub` reproduces the trusted scalar multiples at
scalars whose double-and-add run never trips the `add_points`
assertion — here checked at `k = 2` and `k = 3` against the published
secp256k1 multiples `2·G` and `3·G`. -/
theorem pr_to_pub_matches_trusted_small_scalars :
    prToPub 2 = some
        { x := 0xC6047F9441ED7D6D3045406E95C07CD85C778E4B8CEF3CA7ABAC09B95C709EE5,
          y := 0x1AE168FEA63DC339A3C58419466CEAEEF7F632653266D0E1236431A950CFE52A } ∧
      prToPub 3 = some
        { x := 0xF9308A019258C31049344F85F89D5229B531C845836F99B08601F113BCE036F9,
          y := 0x388F7B0F632DE8140FE337E62A37F3566500A99934C2231B6CB9FD7584B8E672 } := by
  constructor
  · decide
  · decide

/-- One logged loop iteration agrees with the plain one on the
(accumulator, flag) part of the state. -/
theorem prStepLog_state (logs : List String) (ob : Option Point)
    (started : Bool) (st : Nat) (d : Nat) :
    (prStepLog (logs, ob, started, st) d).2.1 = (prStep (ob, started) d).1 ∧
      (prStepLog (logs, ob, started, st) d).2.2.1 = (prStep (ob, started) d).2 := by
  cases ob <;> by_cases hd : d > 0 <;> cases started <;>
    simp [prStepLog, prStep, hd]

/-- The logged double-and-add fold agrees with the plain one on the
(accumulator, flag) part of the state. -/
theorem prFoldLog_proj (l : List Nat) :
    ∀ (logs : List String) (ob : Option Point) (started : Bool) (st : Nat),
      ((l.foldl prStepLog (logs, ob, started, st)).2.1,
        (l.foldl prStepLog (logs, ob, started, st)).2.2.1)
      = l.foldl prStep (ob, started) := by
  induction l with
  | nil => intro logs ob started st; rfl
  | cons d rest ih =>
    intro logs ob started st
    rw [List.foldl_cons, List.foldl_cons]
    obtain ⟨hA, hB⟩ := prStepLog_state logs ob started st d
    have hstep : prStep (ob, started) d
        = ((prStepLog (logs, ob, started, st) d).2.1,
           (prStepLog (logs, ob, started, st) d).2.2.1) :=
      Prod.ext hA.symm hB.symm
    rw [hstep]
    exact ih (prStepLog (logs, ob, started, st) d).1
      (prStepLog (logs, ob, started, st) d).2.1
      (prStepLog (logs, ob, started, st) d).2.2.1
      (prStepLog (logs, ob, started, st) d).2.2.2

/-- C9 counterexample input: contrary to the "no embedded diagnostic
output" requirement, each arithmetic routine prints diagnostics — at
`(G, identity)`, `G` and scalar 1 the emitted line lists are nonempty. -/
theorem arithmetic_routines_emit_diagnostics :
    (addPointsLog gPoint zeroPoint).1 ≠ [] ∧
      (doublePointLog gPoint).1 ≠ [] ∧ (prToPubLog 1).1 ≠ [] := by
  refine ⟨by decide, by decide, ?_⟩
  decide

/-- C9 (amended): the arithmetic routines are deterministic,
value-semantic functions of their inputs — the diagnostic lines they
print never influence the returned value (the logged variants' value
components coincide with the pure functions), and `add`/`double` each
print the one fixed line `"adding"`/`"doubling"` regardless of input —
but they do embed diagnostic output, contrary to the
referential-transparency requirement. -/
theorem arithmetic_value_unaffected_by_logging (pt1 pt2 pt : Point) (k : Nat) :
    (addPointsLog pt1 pt2).2 = addPoints pt1 pt2 ∧
      (addPointsLog pt1 pt2).1 = ["adding"] ∧
      (doublePointLog pt).2 = doublePoint pt ∧
      (doublePointLog pt).1 = ["doubling"] ∧
      (prToPubLog k).2 = prToPub k := by
  refine ⟨rfl, rfl, rfl, rfl, ?_⟩
  simp only [prToPubLog, prToPub]
  rw [← prFoldLog_proj (bitsBE 256 k) [] (some zeroPoint) false 0]

/-- Each of the 22 hexadecimal digit characters parses to a value below
16 whose lowercase rendering is the lowercased character. -/
theorem hex_digit_fact :
    ∀ c ∈ hexDigits, (hexVal c).isSome = true ∧ (hexVal c).getD 0 < 16 ∧
      hexDigitChar ((hexVal c).getD 0) = lowerChar c := by
  decide

/-- Parsing one more trailing digit multiplies the value by 16 and adds
the digit. -/
theorem parseHexAcc_append (l : List Char) (c : Char) :
    ∀ a : Nat,
      parseHexAcc a (l ++ [c])
        = (parseHexAcc a l).bind fun v => (hexVal c).map fun d => 16 * v + d := by
  induction l with
  | nil =>
    intro a
    cases h : hexVal c <;> simp [parseHexAcc, h]
  | cons c0 rest ih =>
    intro a
    cases h0 : hexVal c0 with
    | none => simp [parseHexAcc, h0]
    | some d => simp [parseHexAcc, h0, ih]

/-- A string of hexadecimal digit characters parses successfully, and
rendering the parsed value back over the same number of digits gives the
lowercased string. -/
theorem parse_render_roundtrip (l : List Char) :
    (∀ c ∈ l, c ∈ hexDigits) →
      ∃ v, parseHex l = some v ∧ toHexAux l.length v = l.map lowerChar := by
  induction l using List.reverseRecOn with
  | nil => exact fun _ => ⟨0, rfl, rfl⟩
  | append_singleton l c ih =>
    intro hl
    have hl' : ∀ x ∈ l, x ∈ hexDigits := fun x hx => hl x (List.mem_append_left _ hx)
    have hc : c ∈ hexDigits := hl c (List.mem_append_right _ (List.mem_singleton_self c))
    obtain ⟨v, hv, hr⟩ := ih hl'
    obtain ⟨hsome, hlt, hchar⟩ := hex_digit_fact c hc
    obtain ⟨d, hd⟩ := Option.isSome_iff_exists.mp hsome
    have hd0 : (hexVal c).getD 0 = d := by rw [hd]; rfl
    rw [hd0] at hlt hchar
    refine ⟨16 * v + d, ?_, ?_⟩
    · unfold parseHex at hv ⊢
      rw [parseHexAcc_append l c 0, hv, hd]
      rfl
    · have hlen : (l ++ [c]).length = l.length + 1 := by simp
      rw [hlen]
      have e1 : (16 * v + d) / 16 = v := by omega
      have e2 : (16 * v + d) % 16 = d := by omega
      simp only [toHexAux, e1, e2, hr, hchar, List.map_append]
      rfl

/-- C8: for syntactically valid 64-hex-digit coordinate strings,
`from_hex_coordinates` then `to_hex_string` yields exactly
`"04" + lowercase(x) + lowercase(y)`, with no curve-membership
condition. -/
theorem from_hex_to_hex_roundtrip (xs ys : String)
    (hx : xs.data.length = 64) (hy : ys.data.length = 64)
    (hxd : ∀ c ∈ xs.data, c ∈ hexDigits) (hyd : ∀ c ∈ ys.data, c ∈ hexDigits) :
    Option.map toHexString (fromHexCoordinates xs ys)
      = some (String.mk ('0' :: '4' ::
          (xs.data.map lowerChar ++ ys.data.map lowerChar))) := by
  obtain ⟨vx, hvx, hrx⟩ := parse_render_roundtrip xs.data hxd
  obtain ⟨vy, hvy, hry⟩ := parse_render_roundtrip ys.data hyd
  rw [hx] at hrx
  rw [hy] at hry
  unfold fromHexCoordinates
  rw [hvx, hvy]
  show some (toHexString { x := vx, y := vy }) = _
  unfold toHexString
  rw [hrx, hry]

/-- C8 witness: the round-trip at the generator's coordinate strings. -/
theorem from_hex_to_hex_roundtrip_witness :
    gXHex.data.length = 64 ∧ gYHex.data.length = 64 ∧
      (∀ c ∈ gXHex.data, c ∈ hexDigits) ∧ (∀ c ∈ gYHex.data, c ∈ hexDigits) ∧
      Option.map toHexString (fromHexCoordinates gXHex gYHex)
        = some (String.mk ('0' :: '4' ::
            (gXHex.data.map lowerChar ++ gYHex.data.map lowerChar))) :=
  ⟨by decide, by decide, by decide, by decide,
    from_hex_to_hex_roundtrip gXHex gYHex (by decide) (by decide) (by decide) (by decide)⟩
